import Mathlib

/-!
Verification of the cpsnarks-set repository (files `src/parameters/mod.rs` and
`src/protocols/hash_to_prime/snark_range.rs`) against its natural-language
specification.

The Rust code is shallowly embedded: `u16` arithmetic is modelled on `Nat`,
with every arithmetic operation explicitly checked against the `u16` range.
An operation that would overflow or underflow in Rust (a panic in debug
builds, a silent wrap in release builds) or divide by zero (a panic in every
build) is modelled as `none : Option _`; a normal return is `some _`.
Fallible Rust functions returning `Result` are modelled with `Except`.
-/

namespace CPSnarksSet

/-- Error enum ParametersError from src/parameters/mod.rs (quick_error). -/
inductive ParametersError
  | InvalidParameters
deriving DecidableEq

/-- Struct Parameters from src/parameters/mod.rs.  All four fields are `u16`
in the source; they are modelled as naturals, with range checks performed at
each arithmetic operation. -/
structure Parameters where
  security_zk : Nat
  security_soundness : Nat
  hash_to_prime_bits : Nat
  field_size_bits : Nat
deriving DecidableEq

/-- Method Parameters::is_valid.  The source computes
`d = 1 + (security_zk + security_soundness + 2) / hash_to_prime_bits`
(Rust `u16` floor division) and accepts iff
`d * hash_to_prime_bits + 2 <= field_size_bits`.
Every intermediate `u16` operation is checked: exceeding 65535, or dividing
by zero, yields `none` (the Rust arithmetic fault: debug panic / release
wrap, resp. an unconditional division-by-zero panic). -/
def Parameters.is_valid (p : Parameters) : Option (Except ParametersError Unit) :=
  if p.security_zk + p.security_soundness ≤ 65535 then
    if p.security_zk + p.security_soundness + 2 ≤ 65535 then
      if p.hash_to_prime_bits = 0 then
        none
      else
        if 1 + (p.security_zk + p.security_soundness + 2) / p.hash_to_prime_bits ≤ 65535 then
          if (1 + (p.security_zk + p.security_soundness + 2) / p.hash_to_prime_bits) *
              p.hash_to_prime_bits ≤ 65535 then
            if (1 + (p.security_zk + p.security_soundness + 2) / p.hash_to_prime_bits) *
                p.hash_to_prime_bits + 2 ≤ 65535 then
              if (1 + (p.security_zk + p.security_soundness + 2) / p.hash_to_prime_bits) *
                  p.hash_to_prime_bits + 2 ≤ p.field_size_bits then
                some (Except.ok ())
              else
                some (Except.error ParametersError.InvalidParameters)
            else none
          else none
        else none
    else none
  else none

/-- Associated function Parameters::from_security_level.  Derives
`security_zk = level - 3`, `security_soundness = level - 2`,
`field_size_bits = 2 * level`, `hash_to_prime_bits = 2 * level - 2`
(each a checked `u16` operation), then runs `is_valid` and propagates its
verdict (`parameters.is_valid()?; Ok(parameters)`). -/
def Parameters.from_security_level (security_level : Nat) :
    Option (Except ParametersError Parameters) :=
  if 3 ≤ security_level then
    if 2 ≤ security_level then
      if 2 * security_level ≤ 65535 then
        if 2 ≤ 2 * security_level then
          (Parameters.is_valid
              ⟨security_level - 3, security_level - 2,
               2 * security_level - 2, 2 * security_level⟩).map
            (fun r => r.map fun _ =>
              (⟨security_level - 3, security_level - 2,
                2 * security_level - 2, 2 * security_level⟩ : Parameters))
        else none
      else none
    else none
  else none

/-- Associated function Parameters::from_curve.  The scalar field's
`size_in_bits()` (a `usize`) is cast `as u16`, which truncates modulo 2^16;
the security level is `field_size_bits / 2`, and the remaining fields are
derived exactly as in `from_security_level`, followed by the same
`is_valid` gate.  On success the pair (parameters, security_level) is
returned. -/
def Parameters.from_curve (scalar_field_size_in_bits : Nat) :
    Option (Except ParametersError (Parameters × Nat)) :=
  if 3 ≤ (scalar_field_size_in_bits % 65536) / 2 then
    if 2 ≤ (scalar_field_size_in_bits % 65536) / 2 then
      if 2 * ((scalar_field_size_in_bits % 65536) / 2) ≤ 65535 then
        if 2 ≤ 2 * ((scalar_field_size_in_bits % 65536) / 2) then
          (Parameters.is_valid
              ⟨(scalar_field_size_in_bits % 65536) / 2 - 3,
               (scalar_field_size_in_bits % 65536) / 2 - 2,
               2 * ((scalar_field_size_in_bits % 65536) / 2) - 2,
               scalar_field_size_in_bits % 65536⟩).map
            (fun r => r.map fun _ =>
              ((⟨(scalar_field_size_in_bits % 65536) / 2 - 3,
                 (scalar_field_size_in_bits % 65536) / 2 - 2,
                 2 * ((scalar_field_size_in_bits % 65536) / 2) - 2,
                 scalar_field_size_in_bits % 65536⟩ : Parameters),
               (scalar_field_size_in_bits % 65536) / 2))
        else none
      else none
    else none
  else none

/-- Helper: whenever `is_valid` completes without an arithmetic fault, its
verdict is Ok exactly when the floor-division inequality of the source
holds. -/
theorem is_valid_ok_iff (p : Parameters) (r : Except ParametersError Unit)
    (h : p.is_valid = some r) :
    r = Except.ok () ↔
      (1 + (p.security_zk + p.security_soundness + 2) / p.hash_to_prime_bits) *
          p.hash_to_prime_bits + 2 ≤ p.field_size_bits := by
  unfold Parameters.is_valid at h
  split_ifs at h with h1 h2 h3 h4 h5 h6 h7
  · injection h with h
    subst h
    simp [h7]
  · injection h with h
    subst h
    simp [h7]

/-- C3 (amended): for every parameter tuple on which the u16 arithmetic of
`is_valid` completes without a fault, `is_valid` returns Ok exactly when
`d * mu + 2 <= nu` with `d = 1 + (kappa_zk + kappa_s + 2) / mu`, the division
rounded DOWN (Rust floor division); and for every security level whose
derivation completes without a fault, `from_security_level` succeeds exactly
when the derived tuple satisfies this inequality. -/
theorem C3_is_valid_floor_division :
    (∀ (p : Parameters) (r : Except ParametersError Unit),
        p.is_valid = some r →
        (r = Except.ok () ↔
          (1 + (p.security_zk + p.security_soundness + 2) / p.hash_to_prime_bits) *
              p.hash_to_prime_bits + 2 ≤ p.field_size_bits)) ∧
    (∀ (L : Nat) (r : Except ParametersError Parameters),
        Parameters.from_security_level L = some r →
        ((∃ p, r = Except.ok p) ↔
          (1 + ((L - 3) + (L - 2) + 2) / (2 * L - 2)) * (2 * L - 2) + 2 ≤ 2 * L)) := by
  constructor
  · exact is_valid_ok_iff
  · intro L r h
    unfold Parameters.from_security_level at h
    split_ifs at h with h1 h2 h3 h4
    · rcases hv : Parameters.is_valid
          ⟨L - 3, L - 2, 2 * L - 2, 2 * L⟩ with _ | r0
      · rw [hv] at h
        simp at h
      · rw [hv] at h
        simp only [Option.map_some'] at h
        injection h with h
        have hiff := is_valid_ok_iff _ r0 hv
        rcases r0 with e | u
        · subst h
          constructor
          · rintro ⟨p, hp⟩
            simp [Except.map] at hp
          · intro hineq
            exact Except.noConfusion (hiff.mpr hineq)
        · cases u
          subst h
          constructor
          · intro _
            exact hiff.mp rfl
          · intro _
            exact ⟨_, rfl⟩

/-- C3 counterexample: at the tuple (1, 2, 2, 8) the source's `is_valid`
returns Ok, but the claim's rounded-UP division `d = 1 + ceil(5 / 2) = 4`
gives `d * 2 + 2 = 10 > 8`, so the claim as stated demands a rejection.
The rounded-up quotient `ceil(5 / 2)` is written `(5 + 2 - 1) / 2`. -/
theorem C3_ceil_division_counterexample :
    Parameters.is_valid ⟨1, 2, 2, 8⟩ = some (Except.ok ()) ∧
      ¬ ((1 + ((1 + 2 + 2) + 2 - 1) / 2) * 2 + 2 ≤ 8) :=
  ⟨rfl, by decide⟩

/-- C3 witness: the floor-division characterisation applied to the concrete
tuple (125, 126, 254, 256), the tuple derived from security level 128. -/
theorem C3_is_valid_floor_division_witness :
    (Except.ok () : Except ParametersError Unit) = Except.ok () ↔
      (1 + (125 + 126 + 2) / 254) * 254 + 2 ≤ 256 :=
  C3_is_valid_floor_division.1 ⟨125, 126, 254, 256⟩ (Except.ok ()) rfl

/-- C4: at security level 2 the derivation `security_level - 3` underflows:
the source performs an unchecked u16 subtraction (debug panic, release
wrap), modelled as `none` — it does NOT return the clean
`InvalidParameters` error the claim requires.  Moreover at security
level 5 (inside the claim's example set "every L <= 5") no underflow occurs
at all and the call succeeds outright. -/
theorem C4_small_level_arith_fault :
    Parameters.from_security_level 2 = none ∧
      Parameters.from_security_level 5 = some (Except.ok ⟨2, 3, 8, 10⟩) :=
  ⟨rfl, rfl⟩

/-- C5 counterexample: for a scalar field of bit-length 131092 the
`size_in_bits() as u16` cast truncates modulo 2^16 to 20, the call
succeeds, and the returned security level is 10 — not the claimed
floor(131092 / 2) = 65546 — while `field_size_bits` is 20, not 131092. -/
theorem C5_from_curve_truncation_counterexample :
    Parameters.from_curve 131092 = some (Except.ok (⟨7, 8, 18, 20⟩, 10)) ∧
      (10 : Nat) ≠ 131092 / 2 ∧ (20 : Nat) ≠ 131092 :=
  ⟨rfl, by decide, by decide⟩

/-- C5 (amended): whenever `from_curve` succeeds on a scalar field of
bit-length nu, the returned security level is floor((nu mod 2^16) / 2)
(the usize-to-u16 cast truncates; for nu < 2^16 this is floor(nu / 2) as
claimed), the returned parameters are kappa_zk = L - 3, kappa_s = L - 2,
mu = 2 * L - 2, field_size_bits = nu mod 2^16, and they pass `is_valid`. -/
theorem C5_from_curve_success_shape (ν : Nat) (p : Parameters) (L : Nat)
    (h : Parameters.from_curve ν = some (Except.ok (p, L))) :
    L = (ν % 65536) / 2 ∧
      p.security_zk = L - 3 ∧
      p.security_soundness = L - 2 ∧
      p.hash_to_prime_bits = 2 * L - 2 ∧
      p.field_size_bits = ν % 65536 ∧
      p.is_valid = some (Except.ok ()) := by
  unfold Parameters.from_curve at h
  split_ifs at h with h1 h2 h3 h4
  · rcases hv : Parameters.is_valid
        ⟨ν % 65536 / 2 - 3, ν % 65536 / 2 - 2,
         2 * (ν % 65536 / 2) - 2, ν % 65536⟩ with _ | r0
    · rw [hv] at h
      simp at h
    · rw [hv] at h
      simp only [Option.map_some'] at h
      injection h with h
      rcases r0 with e | u
      · exact Except.noConfusion h
      · cases u
        simp only [Except.map] at h
        injection h with h
        injection h with hp hL
        subst hp
        subst hL
        exact ⟨rfl, rfl, rfl, rfl, rfl, hv⟩

/-- C5 witness: the amended statement applied to a 255-bit scalar field
(the bit-length of the BLS12-381 scalar field used in the tests). -/
theorem C5_from_curve_success_shape_witness :
    (127 : Nat) = 255 % 65536 / 2 ∧
      (124 : Nat) = 127 - 3 ∧
      (125 : Nat) = 127 - 2 ∧
      (252 : Nat) = 2 * 127 - 2 ∧
      (255 : Nat) = 255 % 65536 ∧
      Parameters.is_valid ⟨124, 125, 252, 255⟩ = some (Except.ok ()) :=
  C5_from_curve_success_shape 255 ⟨124, 125, 252, 255⟩ 127 rfl

/-- Big-endian bit decomposition of width `width` of the canonical natural
representative of a field element, as produced by the R1CS gadget
`to_non_unique_bits_be` in HashToPrimeCircuit::generate_constraints:
bit `i` of the list (counting from the front) is bit `width - 1 - i` of the
value. -/
def toBitsBE (width n : Nat) : List Bool :=
  (List.range width).map fun i => n.testBit (width - 1 - i)

/-- Satisfaction of the constraint system emitted by
HashToPrimeCircuit::generate_constraints on an input assignment whose
canonical representative is `n`: with
`bits_to_skip = modulus_bits - required_bit_size`, every bit of
`bits[..bits_to_skip]` is enforced equal to the constant false and
`bits[bits_to_skip]` is enforced equal to the constant true. -/
def circuitConstraintsHold (modulus_bits required_bit_size n : Nat) : Bool :=
  (((toBitsBE modulus_bits n).take (modulus_bits - required_bit_size)).all
      fun b => b == false) &&
    ((toBitsBE modulus_bits n).getD (modulus_bits - required_bit_size) false == true)

/-- HashToPrimeCircuit::generate_constraints, as a satisfaction judgement.
`modulus_bits` is `E::Fr::size_in_bits()` and `n` the canonical
representative of the assigned input value.  `none` models the Rust panic
when `bits_to_skip = modulus_bits - required_bit_size` underflows
(`required_bit_size > modulus_bits`: debug subtraction panic, release
out-of-bounds slice) or when `required_bit_size = 0`
(`bits[bits_to_skip]` indexes one past the end). -/
def generate_constraints (modulus_bits required_bit_size n : Nat) : Option Bool :=
  if 1 ≤ required_bit_size ∧ required_bit_size ≤ modulus_bits then
    some (circuitConstraintsHold modulus_bits required_bit_size n)
  else
    none

/-- Helper: a natural all of whose bits at positions at or above `k` are
clear is below `2 ^ k`. -/
theorem lt_two_pow_of_high_bits_false (n k : Nat)
    (h : ∀ j, k ≤ j → n.testBit j = false) : n < 2 ^ k := by
  have he : n = n % 2 ^ k := by
    apply Nat.eq_of_testBit_eq
    intro i
    rw [Nat.testBit_mod_two_pow]
    by_cases hik : i < k
    · simp [hik]
    · simp [hik, h i (Nat.le_of_not_lt hik)]
  rw [he]
  exact Nat.mod_lt _ (Nat.two_pow_pos k)

/-- Helper: a take of a mapped range is all-false exactly when the mapped
function is false below the cutoff. -/
theorem all_take_range_map (f : Nat → Bool) (m k : Nat) (hmk : m ≤ k) :
    ((((List.range k).map f).take m).all fun b => b == false) = true ↔
      ∀ i, i < m → f i = false := by
  rw [← List.map_take, List.take_range, Nat.min_eq_left hmk, List.all_eq_true]
  constructor
  · intro h i him
    have hb := h (f i) (List.mem_map_of_mem f (List.mem_range.mpr him))
    simpa using hb
  · rintro h x hx
    rcases List.mem_map.mp hx with ⟨i, hi, rfl⟩
    simpa using h i (List.mem_range.mp hi)

/-- Helper: the skipped leading bits of the decomposition are all zero
exactly when the value is below `2 ^ required_bit_size`. -/
theorem highBitsFalse_iff (modulus_bits required_bit_size n : Nat)
    (hkm : required_bit_size ≤ modulus_bits) (hn : n < 2 ^ modulus_bits) :
    ((((toBitsBE modulus_bits n).take (modulus_bits - required_bit_size)).all
        fun b => b == false) = true) ↔ n < 2 ^ required_bit_size := by
  unfold toBitsBE
  rw [all_take_range_map _ _ _ (Nat.sub_le _ _)]
  constructor
  · intro hall
    apply lt_two_pow_of_high_bits_false
    intro j hj
    by_cases hjm : j < modulus_bits
    · have hb := hall (modulus_bits - 1 - j) (by omega)
      have hidx : modulus_bits - 1 - (modulus_bits - 1 - j) = j := by omega
      rwa [hidx] at hb
    · refine Nat.testBit_lt_two_pow (Nat.lt_of_lt_of_le hn ?_)
      exact Nat.pow_le_pow_right (by decide) (by omega)
  · intro hlt i him
    refine Nat.testBit_lt_two_pow (Nat.lt_of_lt_of_le hlt ?_)
    exact Nat.pow_le_pow_right (by decide) (by omega)

/-- Helper: the bit enforced to be true is bit `required_bit_size - 1` of
the value. -/
theorem getD_toBitsBE (modulus_bits required_bit_size n : Nat)
    (hk1 : 1 ≤ required_bit_size) (hkm : required_bit_size ≤ modulus_bits) :
    (toBitsBE modulus_bits n).getD (modulus_bits - required_bit_size) false =
      n.testBit (required_bit_size - 1) := by
  unfold toBitsBE
  have hlt : modulus_bits - required_bit_size < modulus_bits := by omega
  rw [List.getD_eq_getElem?_getD, List.getElem?_map, List.getElem?_range hlt]
  simp only [Option.map_some', Option.getD_some]
  congr 1
  omega

/-- Helper: for a value already below `2 ^ k`, bit `k - 1` is set exactly
when the value is at least `2 ^ (k - 1)`. -/
theorem testBit_pred_iff (k n : Nat) (hk : 1 ≤ k) (hn : n < 2 ^ k) :
    n.testBit (k - 1) = true ↔ 2 ^ (k - 1) ≤ n := by
  constructor
  · exact Nat.testBit_implies_ge
  · intro hge
    rw [Nat.testBit_to_div_mod]
    have h2 : 0 < 2 ^ (k - 1) := Nat.two_pow_pos _
    have hq1 : 1 ≤ n / 2 ^ (k - 1) := (Nat.one_le_div_iff h2).mpr hge
    have hq2 : n / 2 ^ (k - 1) < 2 := by
      rw [Nat.div_lt_iff_lt_mul h2]
      have hk2 : 2 ^ k = 2 * 2 ^ (k - 1) := by
        rcases k with _ | m
        · omega
        · rw [Nat.succ_sub_one, Nat.pow_succ, Nat.mul_comm]
      omega
    have hq : n / 2 ^ (k - 1) = 1 := by omega
    simp [hq]

/-- C1: for every input assignment with canonical representative `n` and
every `required_bit_size` between 1 and the modulus bit-width, the
constraint system generated by HashToPrimeCircuit::generate_constraints is
satisfied exactly when `n` lies in the half-open range
`[2 ^ (required_bit_size - 1), 2 ^ required_bit_size)`. -/
theorem C1_circuit_bit_length_range (modulus_bits required_bit_size n : Nat)
    (hk1 : 1 ≤ required_bit_size) (hkm : required_bit_size ≤ modulus_bits)
    (hn : n < 2 ^ modulus_bits) :
    generate_constraints modulus_bits required_bit_size n = some true ↔
      2 ^ (required_bit_size - 1) ≤ n ∧ n < 2 ^ required_bit_size := by
  unfold generate_constraints
  rw [if_pos ⟨hk1, hkm⟩, Option.some_inj]
  unfold circuitConstraintsHold
  rw [Bool.and_eq_true]
  rw [getD_toBitsBE modulus_bits required_bit_size n hk1 hkm]
  constructor
  · rintro ⟨ha, hb⟩
    have hlt : n < 2 ^ required_bit_size :=
      (highBitsFalse_iff modulus_bits required_bit_size n hkm hn).mp ha
    rw [beq_iff_eq] at hb
    exact ⟨(testBit_pred_iff required_bit_size n hk1 hlt).mp hb, hlt⟩
  · rintro ⟨hge, hlt⟩
    refine ⟨(highBitsFalse_iff modulus_bits required_bit_size n hkm hn).mpr hlt, ?_⟩
    rw [beq_iff_eq]
    exact (testBit_pred_iff required_bit_size n hk1 hlt).mpr hge

/-- C1 witness: with an 8-bit modulus and `required_bit_size = 4`, the
values `2 ^ 3 = 8` and `2 ^ 4 - 1 = 15` satisfy the circuit while
`2 ^ 3 - 1 = 7` and `2 ^ 4 = 16` do not. -/
theorem C1_circuit_bit_length_range_witness :
    generate_constraints 8 4 8 = some true ∧
      generate_constraints 8 4 15 = some true ∧
      generate_constraints 8 4 7 ≠ some true ∧
      generate_constraints 8 4 16 ≠ some true :=
  ⟨(C1_circuit_bit_length_range 8 4 8 (by decide) (by decide) (by decide)).mpr
      (by decide),
   (C1_circuit_bit_length_range 8 4 15 (by decide) (by decide) (by decide)).mpr
      (by decide),
   fun h => absurd
      ((C1_circuit_bit_length_range 8 4 7 (by decide) (by decide) (by decide)).mp h)
      (by decide),
   fun h => absurd
      ((C1_circuit_bit_length_range 8 4 16 (by decide) (by decide) (by decide)).mp h)
      (by decide)⟩

/-- C6: with the 255-bit BLS12-381 scalar-field modulus and
`required_bit_size = 256`, generate_constraints hits the unchecked
`usize` subtraction `modulus_bits - required_bit_size`: it panics (debug:
subtraction overflow; release: wrapped value used as an out-of-bounds slice
bound) — modelled as `none` — and no configuration error is ever
returned. -/
theorem C6_required_bits_exceed_modulus_panics :
    generate_constraints 255 256 0 = none := rfl

/-- Error enum VerificationError from the protocols module.  Besides the
undifferentiated `VerificationFailed` produced by the two checks in
Protocol::verify, the question-mark operator can propagate channel and
backend errors, modelled by the remaining variants. -/
inductive VerificationError
  | VerificationFailed
  | ChannelFailure
  | BackendFailure
deriving DecidableEq

/-- Proof object of the LegoGroth16 backend as used by Protocol::verify:
an opaque SNARK core together with the link group element `link_d`. -/
structure LinkProof (G A : Type) where
  snark_core : A
  link_d : G

/-- Method Protocol::verify from src/protocols/hash_to_prime/snark_range.rs.
`receive_proof` is the result of `prover_channel.receive_proof()`,
`verify_proof` the backend predicate `legogro16::verify_proof` on the
prepared verifying key, `link_bases` the verifying key's link bases and
`c_e_q` the statement's commitment.  `none` models the Rust panic on
indexing `link_bases[0]` of an empty vector; every returned error is
propagated or `VerificationFailed` exactly as in the source. -/
def Protocol.verify (G A : Type) [Sub G] [DecidableEq G]
    (receive_proof : Except VerificationError (LinkProof G A))
    (verify_proof : LinkProof G A → Except VerificationError Bool)
    (link_bases : List G) (c_e_q : G) : Option (Except VerificationError Unit) :=
  match receive_proof with
  | Except.error e => some (Except.error e)
  | Except.ok proof =>
    match verify_proof proof with
    | Except.error e => some (Except.error e)
    | Except.ok b =>
      if !b then
        some (Except.error VerificationError.VerificationFailed)
      else
        match link_bases with
        | [] => none
        | base0 :: _ =>
          if c_e_q ≠ proof.link_d - base0 then
            some (Except.error VerificationError.VerificationFailed)
          else
            some (Except.ok ())

/-- C2: once a proof has been received and the backend predicate reaches a
verdict `b`, Protocol::verify returns Ok exactly when the predicate accepts
(`b = true`) and `proof.link_d - link_bases[0]` equals the statement's
`c_e_q`; whenever either check fails the result is the single
undifferentiated error `VerificationFailed`. -/
theorem C2_verify_snark_and_link (G A : Type) [Sub G] [DecidableEq G]
    (proof : LinkProof G A)
    (verify_proof : LinkProof G A → Except VerificationError Bool)
    (b : Bool) (base0 : G) (rest : List G) (c_e_q : G)
    (hb : verify_proof proof = Except.ok b) :
    (Protocol.verify G A (Except.ok proof) verify_proof (base0 :: rest) c_e_q =
        some (Except.ok ()) ↔
      (b = true ∧ proof.link_d - base0 = c_e_q)) ∧
    ((b = false ∨ proof.link_d - base0 ≠ c_e_q) →
      Protocol.verify G A (Except.ok proof) verify_proof (base0 :: rest) c_e_q =
        some (Except.error VerificationError.VerificationFailed)) := by
  have hv : Protocol.verify G A (Except.ok proof) verify_proof
      (base0 :: rest) c_e_q =
      if !b then some (Except.error VerificationError.VerificationFailed)
      else if c_e_q ≠ proof.link_d - base0 then
        some (Except.error VerificationError.VerificationFailed)
      else some (Except.ok ()) := by
    simp only [Protocol.verify]
    rw [hb]
  rw [hv]
  cases b
  · simp
  · by_cases hc : c_e_q = proof.link_d - base0
    · simp [hc]
    · constructor
      · constructor
        · intro h
          simp [hc] at h
        · rintro ⟨-, h⟩
          exact absurd h.symm hc
      · intro _
        simp [hc]

/-- C2 witness: the characterisation at a concrete integer instance where
both checks pass. -/
theorem C2_verify_snark_and_link_witness :
    (Protocol.verify Int Unit (Except.ok ⟨(), 5⟩) (fun _ => Except.ok true)
        [3] 2 = some (Except.ok ()) ↔
      (true = true ∧ (5 : Int) - 3 = 2)) ∧
    ((true = false ∨ (5 : Int) - 3 ≠ 2) →
      Protocol.verify Int Unit (Except.ok ⟨(), 5⟩) (fun _ => Except.ok true)
        [3] 2 = some (Except.error VerificationError.VerificationFailed)) :=
  C2_verify_snark_and_link Int Unit ⟨(), 5⟩ (fun _ => Except.ok true)
    true 3 [] 2 rfl

/-- Error enum ProofError from the protocols module: the witness-to-field
reduction failure, the backend proving failure and the channel failure that
Protocol::prove can propagate. -/
inductive ProofError
  | IntegerToFieldFailed
  | ProvingFailed
  | ChannelFailed
deriving DecidableEq

/-- Struct Statement: the public commitment `c_e_q`. -/
structure Statement (G : Type) where
  c_e_q : G

/-- Struct Witness: the candidate integer `e` and the commitment
randomness `r_q` (arbitrary-precision integers in the source). -/
structure Witness where
  e : Int
  r_q : Int

/-- Method Protocol::prove from src/protocols/hash_to_prime/snark_range.rs.
`integer_to_bigint_mod_q` is the fallible integer-to-field reduction (an
external utility), `v` the freshly drawn hiding scalar `E::Fr::rand(rng)`,
and `create_random_proof` the backend prover applied to the circuit value,
`v` and `link_v`.  The second component of the result lists the messages
sent on the verifier channel during the call.  The statement parameter is
bound but never used, mirroring the `_: &Statement<...>` binder in the
source. -/
def Protocol.prove (G F P : Type)
    (integer_to_bigint_mod_q : Int → Except ProofError F)
    (create_random_proof : F → F → F → Except ProofError P)
    (v : F)
    (_statement : Statement G)
    (witness : Witness) :
    Except ProofError Unit × List P :=
  match integer_to_bigint_mod_q witness.e with
  | Except.error e => (Except.error e, [])
  | Except.ok value =>
    match integer_to_bigint_mod_q witness.r_q with
    | Except.error e => (Except.error e, [])
    | Except.ok link_v =>
      match create_random_proof value v link_v with
      | Except.error e => (Except.error e, [])
      | Except.ok proof => (Except.ok (), [proof])

/-- C7: a successful call of Protocol::prove sends exactly one message on
the verifier channel, and a failing integer-to-field reduction of the
witness's `e` or `r_q` yields a ProofError with no message sent. -/
theorem C7_prove_sends_one_message (G F P : Type)
    (red : Int → Except ProofError F)
    (cp : F → F → F → Except ProofError P)
    (v : F) (st : Statement G) (w : Witness) :
    ((Protocol.prove G F P red cp v st w).1 = Except.ok () →
      (Protocol.prove G F P red cp v st w).2.length = 1) ∧
    (∀ err, red w.e = Except.error err →
      Protocol.prove G F P red cp v st w = (Except.error err, [])) ∧
    (∀ err fe, red w.e = Except.ok fe → red w.r_q = Except.error err →
      Protocol.prove G F P red cp v st w = (Except.error err, [])) := by
  refine ⟨?_, ?_, ?_⟩
  · intro hok
    unfold Protocol.prove at hok ⊢
    rcases h1 : red w.e with e1 | f1
    · rw [h1] at hok
      simp at hok
    · rw [h1] at hok
      dsimp only at hok ⊢
      rcases h2 : red w.r_q with e2 | f2
      · rw [h2] at hok
        simp at hok
      · rw [h2] at hok
        dsimp only at hok ⊢
        rcases h3 : cp f1 v f2 with e3 | p3
        · rw [h3] at hok
          simp at hok
        · rfl
  · intro err herr
    unfold Protocol.prove
    rw [herr]
  · intro err fe hok herr
    unfold Protocol.prove
    rw [hok, herr]

/-- C7 witness: the three conjuncts at concrete instances — a reduction
that succeeds on even inputs and fails on odd ones, with the witness
(2, 4) for the success case and (3, 4), (2, 3) for the two failure
cases. -/
theorem C7_prove_sends_one_message_witness :
    (Protocol.prove Unit Int Int
        (fun i => if i % 2 = 0 then Except.ok i else
          Except.error ProofError.IntegerToFieldFailed)
        (fun a _ _ => Except.ok a) 0 ⟨()⟩ ⟨2, 4⟩).2.length = 1 ∧
    Protocol.prove Unit Int Int
        (fun i => if i % 2 = 0 then Except.ok i else
          Except.error ProofError.IntegerToFieldFailed)
        (fun a _ _ => Except.ok a) 0 ⟨()⟩ ⟨3, 4⟩ =
      (Except.error ProofError.IntegerToFieldFailed, []) ∧
    Protocol.prove Unit Int Int
        (fun i => if i % 2 = 0 then Except.ok i else
          Except.error ProofError.IntegerToFieldFailed)
        (fun a _ _ => Except.ok a) 0 ⟨()⟩ ⟨2, 3⟩ =
      (Except.error ProofError.IntegerToFieldFailed, []) :=
  ⟨(C7_prove_sends_one_message Unit Int Int _ _ 0 ⟨()⟩ ⟨2, 4⟩).1 rfl,
   (C7_prove_sends_one_message Unit Int Int _ _ 0 ⟨()⟩ ⟨3, 4⟩).2.1
      ProofError.IntegerToFieldFailed rfl,
   (C7_prove_sends_one_message Unit Int Int _ _ 0 ⟨()⟩ ⟨2, 3⟩).2.2
      ProofError.IntegerToFieldFailed 2 rfl rfl⟩

/-- C10: Protocol::prove never reads its statement argument — for a fixed
reduction, randomness and witness, any two statements give identical
results and identical channel messages (the source binds the statement
parameter as `_`). -/
theorem C10_prove_ignores_statement (G F P : Type)
    (red : Int → Except ProofError F)
    (cp : F → F → F → Except ProofError P)
    (v : F) (s1 s2 : Statement G) (w : Witness) :
    Protocol.prove G F P red cp v s1 w = Protocol.prove G F P red cp v s2 w :=
  rfl

/-- Error enum HashToPrimeError from the protocols module; the placeholder
variant is never produced by this backend. -/
inductive HashToPrimeError
  | HashFailed
deriving DecidableEq

/-- Method Protocol::hash_to_prime from
src/protocols/hash_to_prime/snark_range.rs: `Ok((e.clone(), 0))`. -/
def Protocol.hash_to_prime (e : Int) : Except HashToPrimeError (Int × Nat) :=
  Except.ok (e, 0)

/-- C8: for every integer `e`, hash_to_prime returns Ok((e, 0)) — an
identity passthrough with auxiliary nonce 0, never an error. -/
theorem C8_hash_to_prime_identity (e : Int) :
    Protocol.hash_to_prime e = Except.ok (e, 0) :=
  rfl

/-- Struct PedersenCommitment: the two public bases `g` and `h` of the
Pedersen commitment parameters. -/
structure PedersenCommitment (G : Type) where
  g : G
  h : G

/-- Circuit struct HashToPrimeCircuit: the required bit size and the
optional input assignment. -/
structure HashToPrimeCircuit (F : Type) where
  required_bit_size : Nat
  value : Option F

/-- Method Protocol::setup from src/protocols/hash_to_prime/snark_range.rs.
`generate_random_parameters` is the backend key generator,
`into_affine` the projective-to-affine conversion applied to each base,
and `base_one` the freshly drawn random group element
`E::G1Projective::rand(rng)`.  The circuit is built with the security
parameters' `hash_to_prime_bits` and no value; the base vector is
`[base_one, pedersen.g, pedersen.h]`. -/
def Protocol.setup (F G Aff K : Type)
    (generate_random_parameters : HashToPrimeCircuit F → List Aff → K)
    (into_affine : G → Aff)
    (base_one : G)
    (pedersen_commitment_parameters : PedersenCommitment G)
    (parameters : Parameters) : K :=
  generate_random_parameters
    ⟨parameters.hash_to_prime_bits, none⟩
    ([base_one,
      pedersen_commitment_parameters.g,
      pedersen_commitment_parameters.h].map into_affine)

/-- C9: setup hands the backend key generator exactly the circuit with the
parameters' `required_bit_size` and an absent value assignment, together
with the three link bases — random element first, then the two Pedersen
bases `g` and `h`, in that order. -/
theorem C9_setup_arguments (F G Aff K : Type)
    (keygen : HashToPrimeCircuit F → List Aff → K)
    (into_affine : G → Aff)
    (base_one : G) (pc : PedersenCommitment G) (ps : Parameters) :
    Protocol.setup F G Aff K keygen into_affine base_one pc ps =
      keygen ⟨ps.hash_to_prime_bits, none⟩
        [into_affine base_one, into_affine pc.g, into_affine pc.h] :=
  rfl

end CPSnarksSet
